import Mathlib

/-!
Verification of the kenpom-api extraction-and-normalization engine.

JavaScript strings are modelled as `List Char` (named `Str`), so that the
string operations of the source (`split`, `trim`, `slice`, regex matching
against the fixed patterns of the code) become executable list functions
that can be reasoned about by induction.  Machine numbers of the source are
`Nat`/`Int` (the only arithmetic performed is subtraction of parsed scores,
which JavaScript performs exactly on these small integers).
-/

set_option maxHeartbeats 1000000

/-- A JavaScript string, modelled as its list of characters. -/
abbrev Str := List Char

/-- Characters of a literal. -/
def strLit (s : String) : Str := s.data

/-- JavaScript `String.prototype.trim`: drop whitespace from both ends. -/
def jsTrim (s : Str) : Str :=
  ((s.dropWhile Char.isWhitespace).reverse.dropWhile Char.isWhitespace).reverse

/-- Worker computing the maximal non-whitespace runs of a string; `cur`
holds the current run reversed. -/
def wsRunsAux : Str → Str → List Str
  | [], cur => if cur = [] then [] else [cur.reverse]
  | c :: cs, cur =>
    if c.isWhitespace then
      if cur = [] then wsRunsAux cs [] else cur.reverse :: wsRunsAux cs []
    else wsRunsAux cs (c :: cur)

/-- Maximal runs of non-whitespace characters, in order. -/
def wsRuns (s : Str) : List Str := wsRunsAux s []

/-- JavaScript `s.trim().split(/\s+/)`: the empty trimmed string yields
`[""]` (JavaScript split never returns an empty array here), otherwise the
maximal non-whitespace runs. -/
def wsTokens (s : Str) : List Str :=
  let t := jsTrim s
  if t = [] then [[]] else wsRuns t

/-- Worker for JavaScript `String.prototype.split` with a non-empty string
separator; `acc` holds the current piece reversed.  The fuel argument makes
the recursion structural; each step consumes at least one input character,
so the wrapper's `s.length + 1` fuel never runs out. -/
def jsSplitF (sep : Str) : Nat → Str → Str → List Str
  | _, [], acc => [acc.reverse]
  | 0, s, acc => [acc.reverse ++ s]
  | f + 1, x :: xs, acc =>
    if sep.isPrefixOf (x :: xs) then
      acc.reverse :: jsSplitF sep f ((x :: xs).drop sep.length) []
    else
      jsSplitF sep f xs (x :: acc)

/-- JavaScript `s.split(sep)` for a string separator.  An empty separator
splits into single characters, as in JavaScript. -/
def splitOnSep (sep : Str) (s : Str) : List Str :=
  match sep with
  | [] => s.map (fun ch => [ch])
  | _ => jsSplitF sep (s.length + 1) s []

/-- Decimal value of a digit string (the value `parseInt`/`Number` read
from an all-digit string). -/
def valOfDigits (s : Str) : Nat :=
  s.foldl (fun a c => 10 * a + (c.toNat - 48)) 0

/-- A hexadecimal digit, as in the character class of `parseInt`. -/
def isHexDigitChar (c : Char) : Bool :=
  c.isDigit || ('a' ≤ c && c ≤ 'f') || ('A' ≤ c && c ≤ 'F')

/-- Value of a hexadecimal digit string. -/
def hexValOfDigits (s : Str) : Nat :=
  s.foldl (fun a c =>
    16 * a + (if c.isDigit then c.toNat - 48
      else if 'a' ≤ c && c ≤ 'f' then c.toNat - 87 else c.toNat - 55)) 0

/-- JavaScript `parseInt(s)` (radix unspecified): skip leading whitespace,
read an optional sign, then either a `0x`/`0X` hexadecimal literal or a
longest decimal-digit run; `none` models `NaN`. -/
def jsParseInt (s : Str) : Option Int :=
  let t := s.dropWhile Char.isWhitespace
  let neg : Bool := t.head? = some '-'
  let t1 := if t.head? = some '-' ∨ t.head? = some '+' then t.drop 1 else t
  let mag : Option Nat :=
    if t1.take 2 = strLit "0x" ∨ t1.take 2 = strLit "0X" then
      let ds := (t1.drop 2).takeWhile isHexDigitChar
      if ds = [] then none else some (hexValOfDigits ds)
    else
      let ds := t1.takeWhile Char.isDigit
      if ds = [] then none else some (valOfDigits ds)
  mag.map (fun n => if neg then -(n : Int) else (n : Int))

/-- JavaScript `Array.prototype.join(' ')`. -/
def joinSpace : List Str → Str
  | [] => []
  | [t] => t
  | t :: ts => t ++ ' ' :: joinSpace ts

-- ============================================================================
-- parseGameResult (src/parsers.ts)
-- ============================================================================

/-- The `GameResult` record of `src/types.ts`: all identity fields nullable,
`ActualMOV` a nullable integer, three classification flags. -/
structure GameResult where
  Winner : Option Str
  WinnerRank : Option Str
  WinnerScore : Option Str
  Loser : Option Str
  LoserRank : Option Str
  LoserScore : Option Str
  OT : Option Str
  ActualMOV : Option Int
  isCompleted : Bool
  isNeutral : Bool
  isAway : Bool
deriving Repr, DecidableEq

/-- The initial all-null result object of `parseGameResult`. -/
def emptyGameResult : GameResult :=
  { Winner := none, WinnerRank := none, WinnerScore := none,
    Loser := none, LoserRank := none, LoserScore := none,
    OT := none, ActualMOV := none,
    isCompleted := false, isNeutral := false, isAway := false }

/-- The capture of `gameStr.match(/\((\d?OT)\)$/)`: an end-anchored
`(OT)` or `(<digit>OT)` marker. -/
def otMatch (s : Str) : Option Str :=
  match s.reverse with
  | ')' :: 'T' :: 'O' :: '(' :: _ => some (strLit "OT")
  | ')' :: 'T' :: 'O' :: d :: '(' :: _ =>
    if d.isDigit then some (d :: strLit "OT") else none
  | _ => none

/-- `processedStr` after the overtime strip: when the marker matched,
`replace(/\s*\(\d?OT\)\s*$/, '').trim()` removes the `(..OT)` suffix and
surrounding whitespace (the final `trim` subsumes the `\s*` pieces). -/
def otProcessed (s : Str) : Str :=
  match otMatch s with
  | none => s
  | some t => jsTrim (s.take (s.length - (t.length + 2)))

/-- The completed-game branch of `parseGameResult` (comma split succeeded):
first part is the winner; a side is only filled in when it has at least 3
whitespace tokens; `ActualMOV` is computed when both scores are truthy and
parse as integers. -/
def completedBranch (r0 : GameResult) (t1 t2 : Str) : GameResult :=
  let w := wsTokens t1
  let l := wsTokens t2
  let r1 := { r0 with isCompleted := true }
  let r2 := if 3 ≤ w.length then
      { r1 with WinnerRank := w.head?, WinnerScore := w.getLast?,
                Winner := some (joinSpace (w.drop 1).dropLast) }
    else r1
  let r3 := if 3 ≤ l.length then
      { r2 with LoserRank := l.head?, LoserScore := l.getLast?,
                Loser := some (joinSpace (l.drop 1).dropLast) }
    else r2
  match r3.WinnerScore, r3.LoserScore with
  | some ws, some ls =>
    if ws ≠ [] ∧ ls ≠ [] then
      match jsParseInt ws, jsParseInt ls with
      | some a, some b => { r3 with ActualMOV := some (a - b) }
      | _, _ => r3
    else r3
  | _, _ => r3

/-- The away-game branch of `parseGameResult` (" at " split succeeded):
no scores; a side is filled in when it has at least 2 tokens. -/
def awayBranch (r0 : GameResult) (t1 t2 : Str) : GameResult :=
  let p1 := wsTokens t1
  let p2 := wsTokens t2
  let r1 := { r0 with isAway := true }
  let r2 := if 2 ≤ p1.length then
      { r1 with WinnerRank := p1.head?, Winner := some (joinSpace (p1.drop 1)) }
    else r1
  if 2 ≤ p2.length then
    { r2 with LoserRank := p2.head?, Loser := some (joinSpace (p2.drop 1)) }
  else r2

/-- The neutral-site branch of `parseGameResult` (" vs. " split succeeded);
the source duplicates the away-branch body with the `isNeutral` flag. -/
def neutralBranch (r0 : GameResult) (t1 t2 : Str) : GameResult :=
  let p1 := wsTokens t1
  let p2 := wsTokens t2
  let r1 := { r0 with isNeutral := true }
  let r2 := if 2 ≤ p1.length then
      { r1 with WinnerRank := p1.head?, Winner := some (joinSpace (p1.drop 1)) }
    else r1
  if 2 ≤ p2.length then
    { r2 with LoserRank := p2.head?, Loser := some (joinSpace (p2.drop 1)) }
  else r2

/-- `parseGameResult` of `src/parsers.ts`.  The argument is `Option Str` so
that a `null` argument (exercised by the test suite) is representable; the
`!gameStr` guard maps both `null` and the empty string to the all-null
result.  Delimiters are tried in the source's order: `", "`, `" at "`,
`" vs. "`; a split is accepted exactly when it yields two parts. -/
def parseGameResult (g : Option Str) : GameResult :=
  match g with
  | none => emptyGameResult
  | some s =>
    if s = [] then emptyGameResult
    else
      let r0 := { emptyGameResult with OT := otMatch s }
      let p := otProcessed s
      match splitOnSep (strLit ", ") p with
      | [t1, t2] => completedBranch r0 t1 t2
      | _ =>
        match splitOnSep (strLit " at ") p with
        | [t1, t2] => awayBranch r0 t1 t2
        | _ =>
          match splitOnSep (strLit " vs. ") p with
          | [t1, t2] => neutralBranch r0 t1 t2
          | _ => r0

example : parseGameResult (some (strLit "233 Rice 77, 273 FIU 70")) =
    { Winner := some (strLit "Rice"), WinnerRank := some (strLit "233"),
      WinnerScore := some (strLit "77"), Loser := some (strLit "FIU"),
      LoserRank := some (strLit "273"), LoserScore := some (strLit "70"),
      OT := none, ActualMOV := some 7,
      isCompleted := true, isNeutral := false, isAway := false } := by decide

example : parseGameResult (some (strLit "10 Duke at 15 UNC")) =
    { Winner := some (strLit "Duke"), WinnerRank := some (strLit "10"),
      WinnerScore := none, Loser := some (strLit "UNC"),
      LoserRank := some (strLit "15"), LoserScore := none,
      OT := none, ActualMOV := none,
      isCompleted := false, isNeutral := false, isAway := true } := by decide

example : (parseGameResult (some (strLit "1 Duke 80, 5 UNC 78 (OT)"))).OT =
    some (strLit "OT") := by decide

example : parseGameResult (some (strLit "(OT)")) =
    { emptyGameResult with OT := some (strLit "OT") } := by decide

-- ============================================================================
-- Prediction-string parser (parseFanMatch, src/parsers.ts)
-- ============================================================================

/-- Matcher for the tail `\s+(\d+-\d+)\s*\((\d+%)\)\s*\[(\d+)\]` of the full
prediction regex; returns the captures (score, probability, possessions).
Every boundary in the pattern separates disjoint character classes, so this
maximal-munch matcher is equivalent to the backtracking regex engine. -/
def matchTailFull (s : Str) : Option (Str × Str × Str) :=
  let w := s.takeWhile Char.isWhitespace
  let s1 := s.dropWhile Char.isWhitespace
  if w = [] then none else
  let a := s1.takeWhile Char.isDigit
  let s2 := s1.dropWhile Char.isDigit
  if a = [] then none else
  match s2 with
  | '-' :: s3 =>
    let b := s3.takeWhile Char.isDigit
    let s4 := s3.dropWhile Char.isDigit
    if b = [] then none else
    match s4.dropWhile Char.isWhitespace with
    | '(' :: s6 =>
      let c := s6.takeWhile Char.isDigit
      let s7 := s6.dropWhile Char.isDigit
      if c = [] then none else
      match s7 with
      | '%' :: ')' :: s8 =>
        match s8.dropWhile Char.isWhitespace with
        | '[' :: s10 =>
          let d := s10.takeWhile Char.isDigit
          let s11 := s10.dropWhile Char.isDigit
          if d = [] then none else
          match s11 with
          | ']' :: _ => some (a ++ '-' :: b, c ++ ['%'], d)
          | _ => none
        | _ => none
      | _ => none
    | _ => none
  | _ => none

/-- Matcher for the tail `\s+(\d+-\d+)\s*\((\d+%)\)` of the reduced
prediction regex. -/
def matchTailSimple (s : Str) : Option (Str × Str) :=
  let w := s.takeWhile Char.isWhitespace
  let s1 := s.dropWhile Char.isWhitespace
  if w = [] then none else
  let a := s1.takeWhile Char.isDigit
  let s2 := s1.dropWhile Char.isDigit
  if a = [] then none else
  match s2 with
  | '-' :: s3 =>
    let b := s3.takeWhile Char.isDigit
    let s4 := s3.dropWhile Char.isDigit
    if b = [] then none else
    match s4.dropWhile Char.isWhitespace with
    | '(' :: s6 =>
      let c := s6.takeWhile Char.isDigit
      let s7 := s6.dropWhile Char.isDigit
      if c = [] then none else
      match s7 with
      | '%' :: ')' :: _ => some (a ++ '-' :: b, c ++ ['%'])
      | _ => none
    | _ => none
  | _ => none

/-- The lazy leading group `^(.+?)` of the full prediction regex: the name
is the shortest non-empty newline-free run of characters after which the
tail pattern matches. -/
def findPredFull : Str → Str → Option (Str × Str × Str × Str)
  | _, [] => none
  | nameRev, ch :: rest =>
    if ch = '\n' then none
    else
      match matchTailFull rest with
      | some (sc, pr, po) => some ((ch :: nameRev).reverse, sc, pr, po)
      | none => findPredFull (ch :: nameRev) rest

/-- The lazy leading group of the reduced prediction regex. -/
def findPredSimple : Str → Str → Option (Str × Str × Str)
  | _, [] => none
  | nameRev, ch :: rest =>
    if ch = '\n' then none
    else
      match matchTailSimple rest with
      | some (sc, pr) => some ((ch :: nameRev).reverse, sc, pr)
      | none => findPredSimple (ch :: nameRev) rest

/-- Captures of `pred.match(/^(.+?)\s+(\d+-\d+)\s*\((\d+%)\)\s*\[(\d+)\]/)`. -/
def matchPredFull (s : Str) : Option (Str × Str × Str × Str) := findPredFull [] s

/-- Captures of `pred.match(/^(.+?)\s+(\d+-\d+)\s*\((\d+%)\)/)`. -/
def matchPredSimple (s : Str) : Option (Str × Str × Str) := findPredSimple [] s

/-- The five prediction-derived fields of a `FanMatchGame`. -/
structure Prediction where
  PredictedWinner : Option Str
  PredictedScore : Option Str
  WinProbability : Option Str
  PredictedPossessions : Option Nat
  PredictedMOV : Option Int
deriving Repr, DecidableEq

/-- `PredictedMOV` computation: `PredictedScore.split('-').map(Number)`,
then the difference when exactly two numbers result.  `none` inside the
list models `NaN` (which cannot arise from a `\d+-\d+` capture). -/
def movFromScore (sc : Str) : Option Int :=
  let scores := (splitOnSep ['-'] sc).map (fun p =>
    if p ≠ [] ∧ p.all Char.isDigit then some (valOfDigits p) else none)
  match scores with
  | [some a, some b] => some ((a : Int) - (b : Int))
  | _ => none

/-- The prediction-parsing block of `parseFanMatch`: the full pattern is
tried first, then the reduced one, else all five fields are null.
`parseFloat` on a `\d+` capture reads its decimal value. -/
def parsePrediction (pred : Str) : Prediction :=
  match matchPredFull pred with
  | some (n, sc, pr, po) =>
    { PredictedWinner := some (jsTrim n), PredictedScore := some sc,
      WinProbability := some pr,
      PredictedPossessions := if po = [] then none else some (valOfDigits po),
      PredictedMOV := movFromScore sc }
  | none =>
    match matchPredSimple pred with
    | some (n, sc, pr) =>
      { PredictedWinner := some (jsTrim n), PredictedScore := some sc,
        WinProbability := some pr,
        PredictedPossessions := none,
        PredictedMOV := movFromScore sc }
    | none =>
      { PredictedWinner := none, PredictedScore := none,
        WinProbability := none, PredictedPossessions := none,
        PredictedMOV := none }

example : parsePrediction (strLit "Duke 82-75 (75%) [68]") =
    { PredictedWinner := some (strLit "Duke"),
      PredictedScore := some (strLit "82-75"),
      WinProbability := some (strLit "75%"),
      PredictedPossessions := some 68, PredictedMOV := some 7 } := by decide

example : parsePrediction (strLit "Duke 80-75 (65%)") =
    { PredictedWinner := some (strLit "Duke"),
      PredictedScore := some (strLit "80-75"),
      WinProbability := some (strLit "65%"),
      PredictedPossessions := none, PredictedMOV := some 5 } := by decide

example : parsePrediction (strLit "TBD") =
    { PredictedWinner := none, PredictedScore := none,
      WinProbability := none, PredictedPossessions := none,
      PredictedMOV := none } := by decide

-- ============================================================================
-- stripSeed / extractSeed (src/parsers.ts)
-- ============================================================================

/-- `stripSeed`: `''` on a falsy argument, else
`team.replace(/\d+/g, '').trim()` (removing every digit-run is removing
every digit character). -/
def stripSeed (team : Option Str) : Str :=
  match team with
  | none => []
  | some s => if s = [] then [] else jsTrim (s.filter (fun c => ¬ c.isDigit))

/-- First maximal digit run of a string, the capture of
`team.match(/(\d+)/)`. -/
def firstDigitRun : Str → Option Str
  | [] => none
  | c :: cs =>
    if c.isDigit then some (c :: cs.takeWhile Char.isDigit)
    else firstDigitRun cs

/-- `extractSeed`: `null` on a falsy argument, else the first digit run. -/
def extractSeed (team : Option Str) : Option Str :=
  match team with
  | none => none
  | some s => if s = [] then none else firstDigitRun s

example : extractSeed (some (strLit "Duke 1")) = some (strLit "1") := by decide
example : stripSeed (some (strLit "Duke 1")) = strLit "Duke" := by decide

-- ============================================================================
-- getTable (src/parsers.ts): the table locator
-- ============================================================================

/-- The fixed message of the zero-tables failure of `getTable`. -/
def noTablesMsg : Str := strLit "No tables found"

/-- The message of the out-of-range failure of `getTable`:
`Table index ${tableIndex} out of bounds. Found ${tables.length} tables.` -/
def outOfBoundsMsg (tableIndex count : Nat) : Str :=
  strLit "Table index " ++ strLit (Nat.repr tableIndex) ++
  strLit " out of bounds. Found " ++ strLit (Nat.repr count) ++
  strLit " tables."

/-- `getTable`: the selector-matched tables are abstracted to the list of
matched table nodes; a thrown `Error` is an `Except.error` carrying the
message string. -/
def getTable {α : Type} (tables : List α) (tableIndex : Nat) : Except Str α :=
  if tables.length = 0 then .error noTablesMsg
  else if h : tables.length ≤ tableIndex then
    .error (outOfBoundsMsg tableIndex tables.length)
  else .ok (tables.get ⟨tableIndex, by omega⟩)

example : getTable ([] : List Nat) 0 = .error noTablesMsg := rfl
example : getTable [10, 20] 5 = .error (outOfBoundsMsg 5 2) := rfl
example : getTable [10, 20] 1 = .ok 20 := rfl

-- ============================================================================
-- extractRows (src/parsers.ts): the row extractor
-- ============================================================================

/-- A table node, abstracted to the text contents of its `td` cells:
`tbody` is the row list of a `<tbody>` wrapper when one exists, and
`allRows` the list of all `tr` rows of the table (the two access paths the
source uses). -/
structure HtmlTable where
  tbody : Option (List (List Str))
  allRows : List (List Str)

/-- Row selection of `extractRows`: rows of the `tbody` when present,
otherwise all rows but the first. -/
def bodyRows (t : HtmlTable) : List (List Str) :=
  match t.tbody with
  | some rs => rs
  | none => t.allRows.drop 1

/-- JavaScript object-property assignment `rowData[col] = v` on an
insertion-ordered object modelled as an association list. -/
def jsSet (k v : Str) : List (Str × Str) → List (Str × Str)
  | [] => [(k, v)]
  | (k', v') :: rest => if k' = k then (k', v) :: rest else (k', v') :: jsSet k v rest

/-- The inner cell loop of `extractRows`: cell `j` is assigned to column
`j` when the schema has one (`columns[j] !== undefined`). -/
def buildRowAux (columns : List Str) : Nat → List Str → List (Str × Str) → List (Str × Str)
  | _, [], acc => acc
  | j, cell :: rest, acc =>
    buildRowAux columns (j + 1) rest
      (match columns[j]? with
       | some col => jsSet col (jsTrim cell) acc
       | none => acc)

/-- `extractRows`: walk the body rows; skip rows with no `td` cells; build
each row object; keep only rows with at least one key. -/
def extractRows (t : HtmlTable) (columns : List Str) : List (List (Str × Str)) :=
  (bodyRows t).filterMap (fun cells =>
    if cells = [] then none
    else
      let rowData := buildRowAux columns 0 cells []
      if rowData = [] then none else some rowData)

example :
    extractRows
      { tbody := some [[strLit " 1 ", strLit "Duke", strLit "x"], [], [strLit "2"]],
        allRows := [] }
      [strLit "Rk", strLit "Team"] =
    [[(strLit "Rk", strLit "1"), (strLit "Team", strLit "Duke")],
     [(strLit "Rk", strLit "2")]] := by decide

example :
    extractRows { tbody := none, allRows := [[strLit "Rk"], [strLit "7"]] }
      [strLit "Rk"] =
    [[(strLit "Rk", strLit "7")]] := by decide

-- ============================================================================
-- Header derivation (parseTrends; parseTableElement in utils;
-- parseConferenceStandings / parseConferenceTable)
-- ============================================================================

/-- The positional placeholder `Column${i}` for an empty header text. -/
def columnPlaceholder (i : Nat) : Str := strLit "Column" ++ strLit (Nat.repr i)

/-- Header derivation of `parseTrends`: trimmed header text, or the
positional placeholder when empty; no duplicate handling. -/
def trendsHeaders (texts : List Str) : List Str :=
  texts.enum.map (fun p =>
    let tt := jsTrim p.2
    if tt = [] then columnPlaceholder p.1 else tt)

/-- One step of the duplicate-suffixing header loops: trim, replace an
empty text by `Column${i}`, and append `suffix i` when the resulting text
already occurs among the previously derived headers. -/
def dedupStep (suffix : Nat → Str) (i : Nat) (prev : List Str) (t : Str) : Str :=
  let t1 := jsTrim t
  let t2 := if t1 = [] then columnPlaceholder i else t1
  if t2 ∈ prev then t2 ++ suffix i else t2

/-- The header-derivation loop shared in shape by `parseTableElement` and
the conference parsers, parametrised by the duplicate suffix. -/
def dedupHeadersAux (suffix : Nat → Str) : Nat → List Str → List Str → List Str
  | _, acc, [] => acc
  | i, acc, t :: rest =>
    dedupHeadersAux suffix (i + 1) (acc ++ [dedupStep suffix i acc t]) rest

/-- Header derivation of `parseTableElement` (utils): a duplicate gets the
index suffix `_${i}`. -/
def underscoreHeaders (texts : List Str) : List Str :=
  dedupHeadersAux (fun i => '_' :: strLit (Nat.repr i)) 0 [] texts

/-- Header derivation of `parseConferenceStandings` and
`parseConferenceTable`: a duplicate gets the `.Rank` suffix. -/
def rankHeaders (texts : List Str) : List Str :=
  dedupHeadersAux (fun _ => strLit ".Rank") 0 [] texts

example : trendsHeaders [strLit "A", strLit "", strLit "A"] =
    [strLit "A", strLit "Column1", strLit "A"] := by decide
example : underscoreHeaders [strLit "A", strLit "A"] =
    [strLit "A", strLit "A_1"] := by decide
example : rankHeaders [strLit "AdjO", strLit "AdjO"] =
    [strLit "AdjO", strLit "AdjO.Rank"] := by decide
example : underscoreHeaders [strLit "X_2", strLit "X", strLit "X"] =
    [strLit "X_2", strLit "X", strLit "X_2"] := by decide

-- ============================================================================
-- Year-dependent schema selection (parseEfficiency, parseHeight,
-- parseSchedule in src/parsers.ts)
-- ============================================================================

/-- JavaScript truthiness-guarded year test `season && season < y`:
`null` (and the never-occurring year `0`) select the latest schema. -/
def seasonBefore (y : Int) (season : Option Int) : Bool :=
  match season with
  | none => false
  | some s => s ≠ 0 && s < y

/-- Column list of `parseEfficiency`: 14 columns before 2010, 18 after
KenPom added the average-possession-length metrics. -/
def efficiencyColumns (season : Option Int) : List String :=
  if seasonBefore 2010 season then
    ["Team", "Conference",
     "Tempo-Adj", "Tempo-Adj.Rank", "Tempo-Raw", "Tempo-Raw.Rank",
     "Off.Efficiency-Adj", "Off.Efficiency-Adj.Rank",
     "Off.Efficiency-Raw", "Off.Efficiency-Raw.Rank",
     "Def.Efficiency-Adj", "Def.Efficiency-Adj.Rank",
     "Def.Efficiency-Raw", "Def.Efficiency-Raw.Rank"]
  else
    ["Team", "Conference",
     "Tempo-Adj", "Tempo-Adj.Rank", "Tempo-Raw", "Tempo-Raw.Rank",
     "Avg.Poss.Length-Off", "Avg.Poss.Length-Off.Rank",
     "Avg.Poss.Length-Def", "Avg.Poss.Length-Def.Rank",
     "Off.Efficiency-Adj", "Off.Efficiency-Adj.Rank",
     "Off.Efficiency-Raw", "Off.Efficiency-Raw.Rank",
     "Def.Efficiency-Adj", "Def.Efficiency-Adj.Rank",
     "Def.Efficiency-Raw", "Def.Efficiency-Raw.Rank"]

/-- Column list of `parseHeight`: the Continuity pair was added in 2008. -/
def heightColumns (season : Option Int) : List String :=
  if seasonBefore 2008 season then
    ["Team", "Conference",
     "AvgHgt", "AvgHgt.Rank", "EffHgt", "EffHgt.Rank",
     "C-Hgt", "C-Hgt.Rank", "PF-Hgt", "PF-Hgt.Rank",
     "SF-Hgt", "SF-Hgt.Rank", "SG-Hgt", "SG-Hgt.Rank",
     "PG-Hgt", "PG-Hgt.Rank",
     "Experience", "Experience.Rank", "Bench", "Bench.Rank"]
  else
    ["Team", "Conference",
     "AvgHgt", "AvgHgt.Rank", "EffHgt", "EffHgt.Rank",
     "C-Hgt", "C-Hgt.Rank", "PF-Hgt", "PF-Hgt.Rank",
     "SF-Hgt", "SF-Hgt.Rank", "SG-Hgt", "SG-Hgt.Rank",
     "PG-Hgt", "PG-Hgt.Rank",
     "Experience", "Experience.Rank", "Bench", "Bench.Rank",
     "Continuity", "Continuity.Rank"]

/-- Column list of `parseSchedule`: the per-row Team Rank column was added
in 2010. -/
def scheduleColumns (season : Option Int) : List String :=
  if seasonBefore 2010 season then
    ["Date", "Opponent Rank", "Opponent Name", "Result",
     "Possession Number", "A", "Location", "Record", "Conference", "B"]
  else
    ["Date", "Team Rank", "Opponent Rank", "Opponent Name", "Result",
     "Possession Number", "A", "Location", "Record", "Conference", "B"]

example : (efficiencyColumns (some 2009)).length = 14 := by decide
example : (efficiencyColumns (some 2010)).length = 18 := by decide
example : (efficiencyColumns none).length = 18 := by decide
example : (heightColumns (some 2007)).length = 20 := by decide
example : (heightColumns (some 2008)).length = 22 := by decide
example : (scheduleColumns (some 2009)).length = 10 := by decide
example : (scheduleColumns (some 2010)).length = 11 := by decide

-- ============================================================================
-- Generic lemmas about the string model
-- ============================================================================

lemma digit_not_whitespace {c : Char} (h : c.isDigit = true) :
    c.isWhitespace = false := by
  by_contra hw
  have hw' : c.isWhitespace = true := by
    cases hws : c.isWhitespace
    · exact absurd hws hw
    · rfl
  simp only [Char.isWhitespace, Bool.or_eq_true, decide_eq_true_eq] at hw'
  rcases hw' with ((h1 | h1) | h1) | h1 <;> subst h1 <;> simp at h

lemma digit_ne_of_not_digit {c d : Char} (h : c.isDigit = true)
    (hd : d.isDigit = false) : c ≠ d := by
  intro he
  subst he
  rw [h] at hd
  exact absurd hd (by simp)

lemma pair_infix_of_getElem {l : Str} {i : Nat} {c1 c2 : Char}
    (h1 : l[i]? = some c1) (h2 : l[i + 1]? = some c2) : [c1, c2] <:+: l := by
  have hi : i < l.length := by
    by_contra hc
    rw [List.getElem?_eq_none (by omega)] at h1
    exact absurd h1 (by simp)
  have hi2 : i + 1 < l.length := by
    by_contra hc
    rw [List.getElem?_eq_none (by omega)] at h2
    exact absurd h2 (by simp)
  refine ⟨l.take i, l.drop (i + 2), ?_⟩
  have e1 : l.drop i = c1 :: l.drop (i + 1) := by
    rw [List.drop_eq_getElem_cons hi]
    have : l[i] = c1 := by
      have := List.getElem?_eq_getElem hi
      rw [h1] at this
      exact (Option.some_injective _ this.symm)
    rw [this]
  have e2 : l.drop (i + 1) = c2 :: l.drop (i + 2) := by
    rw [List.drop_eq_getElem_cons hi2]
    have : l[i + 1] = c2 := by
      have := List.getElem?_eq_getElem hi2
      rw [h2] at this
      exact (Option.some_injective _ this.symm)
    rw [this]
  calc l.take i ++ [c1, c2] ++ l.drop (i + 2)
      = l.take i ++ (c1 :: c2 :: l.drop (i + 2)) := by simp
    _ = l.take i ++ l.drop i := by rw [e1, e2]
    _ = l := List.take_append_drop i l

lemma getElem_of_infix_pair {l : Str} {c1 c2 : Char} (h : [c1, c2] <:+: l) :
    ∃ i, l[i]? = some c1 ∧ l[i + 1]? = some c2 := by
  obtain ⟨pre, suf, hl⟩ := h
  refine ⟨pre.length, ?_, ?_⟩
  · rw [← hl]
    rw [List.append_assoc, List.getElem?_append_right (by omega)]
    simp
  · rw [← hl]
    rw [List.append_assoc, List.getElem?_append_right (by omega)]
    simp

lemma infix_pair_append {c1 c2 : Char} {a b : Str} (h : [c1, c2] <:+: a ++ b) :
    [c1, c2] <:+: a ∨ [c1, c2] <:+: b ∨
      (a.getLast? = some c1 ∧ b.head? = some c2) := by
  obtain ⟨i, h1, h2⟩ := getElem_of_infix_pair h
  rcases lt_or_ge (i + 1) a.length with hlt | hge
  · left
    rw [List.getElem?_append_left (by omega)] at h1
    rw [List.getElem?_append_left hlt] at h2
    exact pair_infix_of_getElem h1 h2
  · rcases lt_or_ge i a.length with hlt2 | hge2
    · right; right
      have hi : i = a.length - 1 := by omega
      have ha : a.getLast? = some c1 := by
        rw [List.getElem?_append_left hlt2] at h1
        rw [List.getLast?_eq_getElem?, ← hi]
        exact h1
      have hb : b.head? = some c2 := by
        rw [List.getElem?_append_right (by omega)] at h2
        have : i + 1 - a.length = 0 := by omega
        rw [this] at h2
        rw [List.head?_eq_getElem?]
        exact h2
      exact ⟨ha, hb⟩
    · right; left
      rw [List.getElem?_append_right (by omega)] at h1
      rw [List.getElem?_append_right (by omega)] at h2
      have : i + 1 - a.length = (i - a.length) + 1 := by omega
      rw [this] at h2
      exact pair_infix_of_getElem h1 h2

lemma infix_pair_cons {c1 c2 x : Char} {l : Str} (h : [c1, c2] <:+: x :: l) :
    (x = c1 ∧ l.head? = some c2) ∨ [c1, c2] <:+: l := by
  obtain ⟨i, h1, h2⟩ := getElem_of_infix_pair h
  cases i with
  | zero =>
    left
    simp only [List.getElem?_cons_zero] at h1
    simp only [List.getElem?_cons_succ] at h2
    exact ⟨Option.some_injective _ h1, by rw [List.head?_eq_getElem?]; exact h2⟩
  | succ j =>
    right
    simp only [List.getElem?_cons_succ] at h1 h2
    exact pair_infix_of_getElem h1 h2

lemma infix_iff_exists_drop {sep l : Str} :
    sep <:+: l ↔ ∃ i, sep <+: l.drop i := by
  constructor
  · rintro ⟨pre, suf, hl⟩
    exact ⟨pre.length, suf, by rw [← hl, List.append_assoc, List.drop_left]⟩
  · rintro ⟨i, suf, hd⟩
    exact ⟨l.take i, suf, by rw [List.append_assoc, hd, List.take_append_drop]⟩

lemma jsSplitF_no_occurrence {sep : Str} (_hsep : sep ≠ []) :
    ∀ (s : Str) (f : Nat) (acc : Str), s.length ≤ f →
      (∀ i, ¬ sep <+: s.drop i) →
      jsSplitF sep f s acc = [acc.reverse ++ s] := by
  intro s
  induction s with
  | nil =>
    intro f acc _ _
    cases f <;> simp [jsSplitF]
  | cons x xs ih =>
    intro f acc hf hocc
    cases f with
    | zero => simp at hf
    | succ f' =>
      have hnp : sep.isPrefixOf (x :: xs) = false := by
        by_contra hc
        have : sep.isPrefixOf (x :: xs) = true := by
          cases hb : sep.isPrefixOf (x :: xs)
          · exact absurd hb hc
          · rfl
        exact hocc 0 (List.isPrefixOf_iff_prefix.mp this)
      rw [jsSplitF, if_neg (by simp [hnp])]
      rw [ih f' (x :: acc) (by simp at hf ⊢; omega) (fun i => by
        have := hocc (i + 1)
        simpa using this)]
      simp

lemma jsSplitF_junction {sep : Str} (hsep : sep ≠ []) :
    ∀ (x : Str) (y : Str) (f : Nat) (acc : Str),
      (x ++ sep ++ y).length ≤ f →
      (∀ i, x.drop i ≠ [] → ¬ sep <+: (x.drop i ++ sep ++ y)) →
      (∀ i, ¬ sep <+: y.drop i) →
      jsSplitF sep f (x ++ sep ++ y) acc = [acc.reverse ++ x, y] := by
  intro x
  induction x with
  | nil =>
    intro y f acc hf hx hy
    simp only [List.nil_append]
    obtain ⟨c, cs, hcs⟩ : ∃ c cs, sep = c :: cs := by
      cases sep with
      | nil => exact absurd rfl hsep
      | cons c cs => exact ⟨c, cs, rfl⟩
    subst hcs
    cases f with
    | zero => simp [List.length_append] at hf
    | succ f' =>
      have : (c :: cs) ++ y = c :: (cs ++ y) := by simp
      rw [this, jsSplitF, if_pos]
      · have hdrop : (c :: (cs ++ y)).drop (c :: cs).length = y := by
          have : c :: (cs ++ y) = (c :: cs) ++ y := by simp
          rw [this, List.drop_left]
        rw [hdrop]
        rw [jsSplitF_no_occurrence hsep y f' [] (by
          simp [List.length_append] at hf ⊢; omega) hy]
        simp
      · rw [List.isPrefixOf_iff_prefix]
        exact ⟨y, by simp⟩
  | cons a x' ih =>
    intro y f acc hf hx hy
    have hne : (a :: x') ++ sep ++ y = a :: (x' ++ sep ++ y) := by simp
    cases f with
    | zero => simp [List.length_append] at hf
    | succ f' =>
      rw [hne, jsSplitF, if_neg]
      · rw [ih y f' (a :: acc) (by simp [List.length_append] at hf ⊢; omega)
          (fun i => by
            intro hni
            have := hx (i + 1)
            simpa using this hni) hy]
        simp
      · intro hc
        have hc' : sep.isPrefixOf (a :: (x' ++ sep ++ y)) = true := by
          simpa using hc
        have := hx 0 (by simp)
        rw [List.drop_zero] at this
        exact this (by
          rw [← List.isPrefixOf_iff_prefix]
          rw [hne]
          exact hc')

lemma splitOnSep_junction {sep x y : Str} (hsep : sep ≠ [])
    (hx : ∀ i, x.drop i ≠ [] → ¬ sep <+: (x.drop i ++ sep ++ y))
    (hy : ∀ i, ¬ sep <+: y.drop i) :
    splitOnSep sep (x ++ sep ++ y) = [x, y] := by
  obtain ⟨c, cs, hcs⟩ : ∃ c cs, sep = c :: cs := by
    cases sep with
    | nil => exact absurd rfl hsep
    | cons c cs => exact ⟨c, cs, rfl⟩
  subst hcs
  rw [splitOnSep]
  rw [jsSplitF_junction hsep x y ((x ++ (c :: cs) ++ y).length + 1) []
    (by omega) hx hy]
  · simp
  · simp

lemma splitOnSep_single {sep s : Str} (hsep : sep ≠ [])
    (hocc : ¬ sep <:+: s) : splitOnSep sep s = [s] := by
  obtain ⟨c, cs, hcs⟩ : ∃ c cs, sep = c :: cs := by
    cases sep with
    | nil => exact absurd rfl hsep
    | cons c cs => exact ⟨c, cs, rfl⟩
  subst hcs
  rw [splitOnSep]
  rw [jsSplitF_no_occurrence hsep s (s.length + 1) [] (by omega) (fun i => by
    intro hc
    exact hocc (infix_iff_exists_drop.mpr ⟨i, hc⟩))]
  · simp
  · simp

lemma splitOnSep_comma {x y : Str}
    (hx : ¬ strLit ", " <:+: x) (hy : ¬ strLit ", " <:+: y) :
    splitOnSep (strLit ", ") (x ++ strLit ", " ++ y) = [x, y] := by
  apply splitOnSep_junction (by decide)
  · intro i hne hpre
    rcases hd : x.drop i with _ | ⟨c, rest⟩
    · exact hne hd
    · rw [hd] at hpre
      have hpre' : strLit ", " <+: c :: (rest ++ strLit ", " ++ y) := by
        simpa using hpre
      have hc : ',' = c ∧ strLit " " <+: rest ++ strLit ", " ++ y := by
        have := List.cons_prefix_cons.mp hpre'
        exact ⟨this.1, this.2⟩
      rcases hrest : rest with _ | ⟨c2, rest'⟩
      · subst hrest
        have : strLit " " <+: strLit ", " ++ y := by simpa using hc.2
        have hsp : (' ' : Char) = ',' := (List.cons_prefix_cons.mp this).1
        simp at hsp
      · subst hrest
        have hc2 : (' ' : Char) = c2 := by
          have := hc.2
          have : strLit " " <+: c2 :: (rest' ++ strLit ", " ++ y) := by
            simpa using this
          exact (List.cons_prefix_cons.mp this).1
        have hpair : [(',' : Char), ' '] <:+: x := by
          have h0 : (x.drop i)[0]? = some ',' := by rw [hd, ← hc.1]; rfl
          have h1 : (x.drop i)[1]? = some ' ' := by rw [hd, ← hc2]; simp
          have : [(',' : Char), ' '] <:+: x.drop i := pair_infix_of_getElem h0 h1
          exact this.trans (List.drop_suffix i x).isInfix
        exact hx (by simpa [strLit] using hpair)
  · intro i hc
    exact hy (by
      have : strLit ", " <:+: y := infix_iff_exists_drop.mpr ⟨i, hc⟩
      exact this)

lemma splitOnSep_dash {a b : Str}
    (ha : ('-' : Char) ∉ a) (hb : ('-' : Char) ∉ b) :
    splitOnSep ['-'] (a ++ ['-'] ++ b) = [a, b] := by
  apply splitOnSep_junction (by decide)
  · intro i hne hpre
    rcases hd : a.drop i with _ | ⟨c, rest⟩
    · exact hne hd
    · rw [hd] at hpre
      have hpre' : [('-' : Char)] <+: c :: (rest ++ ['-'] ++ b) := by
        simpa using hpre
      have hc : ('-' : Char) = c := (List.cons_prefix_cons.mp hpre').1
      have : ('-' : Char) ∈ a := by
        have : c ∈ a.drop i := by rw [hd]; simp
        rw [← hc] at this
        exact (List.drop_subset i a) this
      exact ha this
  · intro i hc
    have : ('-' : Char) ∈ b := by
      obtain ⟨t, ht⟩ := hc
      have : ('-' : Char) ∈ b.drop i := by
        rw [← ht]; simp
      exact (List.drop_subset i b) this
    exact hb this

lemma jsTrim_within (s : Str) : jsTrim s <:+: s := by
  unfold jsTrim
  have h1 : s.dropWhile Char.isWhitespace <:+ s := List.dropWhile_suffix _
  have h2 : (s.dropWhile Char.isWhitespace).reverse.dropWhile Char.isWhitespace
      <:+ (s.dropWhile Char.isWhitespace).reverse := List.dropWhile_suffix _
  have h3 : ((s.dropWhile Char.isWhitespace).reverse.dropWhile
      Char.isWhitespace).reverse <+: s.dropWhile Char.isWhitespace := by
    have h4 := List.reverse_prefix.mpr h2
    simpa using h4
  exact h3.isInfix.trans h1.isInfix

lemma otProcessed_within (s : Str) : otProcessed s <:+: s := by
  unfold otProcessed
  cases h : otMatch s with
  | none => exact List.infix_rfl
  | some t =>
    exact (jsTrim_within _).trans (List.take_prefix _ s).isInfix

lemma jsTrim_eq_self {s : Str}
    (hh : ∀ c, s.head? = some c → c.isWhitespace = false)
    (hl : ∀ c, s.getLast? = some c → c.isWhitespace = false) :
    jsTrim s = s := by
  unfold jsTrim
  have h1 : s.dropWhile Char.isWhitespace = s := by
    cases s with
    | nil => rfl
    | cons c cs =>
      rw [List.dropWhile_cons, if_neg]
      rw [hh c rfl]
      simp
  rw [h1]
  cases hrev : s.reverse with
  | nil => simp [List.reverse_eq_nil_iff.mp hrev]
  | cons c cs =>
    rw [List.dropWhile_cons, if_neg]
    · rw [← hrev, List.reverse_reverse]
    · have : s.getLast? = some c := by
        rw [← List.head?_reverse, hrev]; rfl
      rw [hl c this]
      simp

lemma wsRunsAux_nonws_append {a : Str} (ha : ∀ c ∈ a, c.isWhitespace = false) :
    ∀ (r cur : Str), wsRunsAux (a ++ r) cur = wsRunsAux r (a.reverse ++ cur) := by
  induction a with
  | nil => intro r cur; simp
  | cons c cs ih =>
    intro r cur
    have hc : c.isWhitespace = false := ha c (by simp)
    rw [List.cons_append, wsRunsAux, if_neg (by rw [hc]; simp)]
    rw [ih (fun x hx => ha x (by simp [hx])) r (c :: cur)]
    simp

lemma wsRuns_joinSpace {toks : List Str} (hne : toks ≠ [])
    (htok : ∀ t ∈ toks, t ≠ [] ∧ ∀ c ∈ t, c.isWhitespace = false) :
    wsRunsAux (joinSpace toks) [] = toks := by
  induction toks with
  | nil => exact absurd rfl hne
  | cons t rest ih =>
    cases rest with
    | nil =>
      have ht := htok t (by simp)
      show wsRunsAux (joinSpace [t]) [] = [t]
      rw [joinSpace]
      have : wsRunsAux (t ++ []) [] = wsRunsAux [] (t.reverse ++ []) :=
        wsRunsAux_nonws_append ht.2 [] []
      simp only [List.append_nil] at this
      rw [this, wsRunsAux, if_neg (by simp [ht.1]), List.reverse_reverse]
    | cons t2 rest2 =>
      have ht := htok t (by simp)
      have hjs : joinSpace (t :: t2 :: rest2) = t ++ ' ' :: joinSpace (t2 :: rest2) := rfl
      show wsRunsAux (joinSpace (t :: t2 :: rest2)) [] = t :: t2 :: rest2
      rw [hjs]
      rw [wsRunsAux_nonws_append ht.2 (' ' :: joinSpace (t2 :: rest2)) []]
      rw [wsRunsAux, if_pos (by simp)]
      rw [if_neg (by simp [ht.1])]
      simp only [List.append_nil, List.reverse_reverse]
      rw [ih (by simp) (fun x hx => htok x (by simp [hx]))]

lemma joinSpace_ne_nil {toks : List Str} (hne : toks ≠ [])
    (htok : ∀ t ∈ toks, t ≠ []) : joinSpace toks ≠ [] := by
  cases toks with
  | nil => exact absurd rfl hne
  | cons t rest =>
    cases rest with
    | nil => exact htok t (by simp)
    | cons t2 rest2 =>
      have hjs : joinSpace (t :: t2 :: rest2) = t ++ ' ' :: joinSpace (t2 :: rest2) := rfl
      rw [hjs]
      simp [htok t (by simp)]

lemma joinSpace_head? {t : Str} {rest : List Str} (ht : t ≠ []) :
    (joinSpace (t :: rest)).head? = t.head? := by
  cases rest with
  | nil => rfl
  | cons t2 rest2 =>
    have hjs : joinSpace (t :: t2 :: rest2) = t ++ ' ' :: joinSpace (t2 :: rest2) := rfl
    rw [hjs]
    cases t with
    | nil => exact absurd rfl ht
    | cons c cs => rfl

lemma joinSpace_concat {l : List Str} {t : Str} (hl : l ≠ []) :
    joinSpace (l ++ [t]) = joinSpace l ++ ' ' :: t := by
  induction l with
  | nil => exact absurd rfl hl
  | cons x l' ih =>
    cases l' with
    | nil => rfl
    | cons x2 l2 =>
      simp only [List.cons_append] at ih ⊢
      have hjs : joinSpace (x :: x2 :: (l2 ++ [t])) =
          x ++ ' ' :: joinSpace (x2 :: (l2 ++ [t])) := rfl
      have hjs2 : joinSpace (x :: x2 :: l2) = x ++ ' ' :: joinSpace (x2 :: l2) := rfl
      rw [hjs, hjs2, ih (by simp)]
      simp

lemma joinSpace_getLast? {l : List Str} {t : Str} (hl : l ≠ []) (ht : t ≠ []) :
    (joinSpace (l ++ [t])).getLast? = t.getLast? := by
  rw [joinSpace_concat hl]
  rw [List.getLast?_append_of_ne_nil _ (by simp)]
  rw [← List.head?_reverse, List.reverse_cons, ← List.head?_reverse]
  rw [List.head?_append]
  cases hr : t.reverse with
  | nil => exact absurd (List.reverse_eq_nil_iff.mp hr) ht
  | cons c cs => rfl

lemma wsTokens_joinSpace {toks : List Str} (hne : toks ≠ [])
    (htok : ∀ t ∈ toks, t ≠ [] ∧ ∀ c ∈ t, c.isWhitespace = false) :
    wsTokens (joinSpace toks) = toks := by
  have hjne : joinSpace toks ≠ [] := joinSpace_ne_nil hne (fun t h => (htok t h).1)
  have htrim : jsTrim (joinSpace toks) = joinSpace toks := by
    apply jsTrim_eq_self
    · intro c hc
      cases toks with
      | nil => exact absurd rfl hne
      | cons t rest =>
        have ht := htok t (by simp)
        rw [joinSpace_head? ht.1] at hc
        exact ht.2 c (List.mem_of_mem_head? hc)
    · intro c hc
      obtain ⟨l, t, hlt⟩ : ∃ l t, toks = l ++ [t] := ⟨toks.dropLast, toks.getLast hne,
        (List.dropLast_append_getLast hne).symm⟩
      subst hlt
      have ht := htok t (by simp)
      by_cases hl : l = []
      · subst hl
        simp only [List.nil_append] at hc
        have hj1 : (joinSpace [t]).getLast? = t.getLast? := rfl
        rw [hj1] at hc
        obtain ⟨hne2, he⟩ := List.mem_getLast?_eq_getLast hc
        exact ht.2 c (he ▸ List.getLast_mem hne2)
      · rw [joinSpace_getLast? hl ht.1] at hc
        obtain ⟨hne2, he⟩ := List.mem_getLast?_eq_getLast hc
        exact ht.2 c (he ▸ List.getLast_mem hne2)
  rw [wsTokens]
  simp only [htrim, if_neg hjne]
  exact wsRuns_joinSpace hne htok

lemma otMatch_eq_none {s : Str}
    (hl : ∀ c, s.getLast? = some c → c ≠ ')') : otMatch s = none := by
  unfold otMatch
  cases hrev : s.reverse with
  | nil => rfl
  | cons c rest =>
    have hc : s.getLast? = some c := by rw [← List.head?_reverse, hrev]; rfl
    have hcne : c ≠ ')' := hl c hc
    rcases rest with _ | ⟨c2, rest2⟩
    · simp [hcne]
    · rcases rest2 with _ | ⟨c3, rest3⟩
      · simp [hcne]
      · rcases rest3 with _ | ⟨c4, rest4⟩
        · simp [hcne]
        · simp [hcne]

lemma takeWhile_eq_self_of_all {p : Char → Bool} {s : Str}
    (h : ∀ c ∈ s, p c = true) : s.takeWhile p = s :=
  List.takeWhile_eq_self_iff.mpr h

lemma jsParseInt_digits {s : Str} (hne : s ≠ [])
    (hd : ∀ c ∈ s, c.isDigit = true) :
    jsParseInt s = some ((valOfDigits s : Int)) := by
  obtain ⟨c, cs, hcs⟩ : ∃ c cs, s = c :: cs := by
    cases s with
    | nil => exact absurd rfl hne
    | cons c cs => exact ⟨c, cs, rfl⟩
  subst hcs
  have hc : c.isDigit = true := hd c (by simp)
  unfold jsParseInt
  have hdw : (c :: cs).dropWhile Char.isWhitespace = c :: cs := by
    rw [List.dropWhile_cons, if_neg]
    rw [digit_not_whitespace hc]
    simp
  rw [hdw]
  have hcm : (c :: cs).head? = some c := rfl
  have hne1 : ¬ ((c :: cs).head? = some '-' ∨ (c :: cs).head? = some '+') := by
    rw [hcm]
    rintro (h1 | h1) <;>
      exact absurd (Option.some_injective _ h1)
        (digit_ne_of_not_digit hc (by decide))
  have hneg : ((c :: cs).head? = some '-' : Bool) = false := by
    simp only [hcm]
    have : c ≠ '-' := digit_ne_of_not_digit hc (by decide)
    simp [this]
  simp only [hneg, if_neg hne1]
  have hnx : ¬ ((c :: cs).take 2 = strLit "0x" ∨ (c :: cs).take 2 = strLit "0X") := by
    rintro (h1 | h1) <;>
    · cases cs with
      | nil => simp [strLit] at h1
      | cons c2 cs2 =>
        have hc2 : c2.isDigit = true := hd c2 (by simp)
        simp [strLit] at h1
        rw [h1.2] at hc2
        simp at hc2
  rw [if_neg hnx]
  rw [takeWhile_eq_self_of_all hd, if_neg hne]
  simp

-- ============================================================================
-- Characterizations of the parseGameResult branches
-- ============================================================================

lemma completedBranch_flags (r0 : GameResult) (t1 t2 : Str) :
    (completedBranch r0 t1 t2).isCompleted = true ∧
    (completedBranch r0 t1 t2).isAway = r0.isAway ∧
    (completedBranch r0 t1 t2).isNeutral = r0.isNeutral := by
  simp only [completedBranch]
  repeat' split
  all_goals simp

lemma awayBranch_flags (r0 : GameResult) (t1 t2 : Str) :
    (awayBranch r0 t1 t2).isAway = true ∧
    (awayBranch r0 t1 t2).isCompleted = r0.isCompleted ∧
    (awayBranch r0 t1 t2).isNeutral = r0.isNeutral := by
  simp only [awayBranch]
  repeat' split
  all_goals simp

lemma neutralBranch_flags (r0 : GameResult) (t1 t2 : Str) :
    (neutralBranch r0 t1 t2).isNeutral = true ∧
    (neutralBranch r0 t1 t2).isCompleted = r0.isCompleted ∧
    (neutralBranch r0 t1 t2).isAway = r0.isAway := by
  simp only [neutralBranch]
  repeat' split
  all_goals simp

lemma completedBranch_short_winner (r0 : GameResult) (t1 t2 : Str)
    (h : ¬ 3 ≤ (wsTokens t1).length) (h0 : r0.WinnerScore = none) :
    (completedBranch r0 t1 t2).Winner = r0.Winner ∧
    (completedBranch r0 t1 t2).WinnerRank = r0.WinnerRank ∧
    (completedBranch r0 t1 t2).WinnerScore = none ∧
    (completedBranch r0 t1 t2).ActualMOV = r0.ActualMOV := by
  simp only [completedBranch, if_neg h]
  repeat' split
  all_goals simp_all

lemma completedBranch_short_loser (r0 : GameResult) (t1 t2 : Str)
    (h : ¬ 3 ≤ (wsTokens t2).length) (h0 : r0.LoserScore = none) :
    (completedBranch r0 t1 t2).Loser = r0.Loser ∧
    (completedBranch r0 t1 t2).LoserRank = r0.LoserRank ∧
    (completedBranch r0 t1 t2).LoserScore = none ∧
    (completedBranch r0 t1 t2).ActualMOV = r0.ActualMOV := by
  simp only [completedBranch, if_neg h]
  repeat' split
  all_goals simp_all

lemma parseGameResult_two_comma_parts {s t1 t2 : Str} (hs : s ≠ [])
    (hsp : splitOnSep (strLit ", ") (otProcessed s) = [t1, t2]) :
    parseGameResult (some s) =
      completedBranch { emptyGameResult with OT := otMatch s } t1 t2 := by
  simp only [parseGameResult, if_neg hs, hsp]

lemma parseGameResult_no_split {s : Str} (hs : s ≠ [])
    (h1 : splitOnSep (strLit ", ") (otProcessed s) = [otProcessed s])
    (h2 : splitOnSep (strLit " at ") (otProcessed s) = [otProcessed s])
    (h3 : splitOnSep (strLit " vs. ") (otProcessed s) = [otProcessed s]) :
    parseGameResult (some s) = { emptyGameResult with OT := otMatch s } := by
  simp only [parseGameResult, if_neg hs, h1, h2, h3]

-- ============================================================================
-- C10: the three classification flags are mutually exclusive
-- ============================================================================

/-- C10.  For every input, the `GameResult` returned by `parseGameResult`
has at most one of the flags `isCompleted`, `isAway`, `isNeutral` set: the
delimiters are tried in priority order and the first branch that fires
returns immediately, setting exactly one flag. -/
theorem parseGameResult_flags_exclusive (g : Option Str) :
    ((parseGameResult g).isCompleted && (parseGameResult g).isAway) = false ∧
    ((parseGameResult g).isCompleted && (parseGameResult g).isNeutral) = false ∧
    ((parseGameResult g).isAway && (parseGameResult g).isNeutral) = false := by
  cases g with
  | none => simp [parseGameResult, emptyGameResult]
  | some s =>
    by_cases hs : s = []
    · subst hs
      simp [parseGameResult, emptyGameResult]
    · simp only [parseGameResult, if_neg hs]
      split
      · rename_i t1 t2 heq
        obtain ⟨ha, hb, hc⟩ :=
          completedBranch_flags { emptyGameResult with OT := otMatch s } t1 t2
        simp only [emptyGameResult] at ha hb hc ⊢
        simp [ha, hb, hc]
      · split
        · rename_i t1 t2 heq
          obtain ⟨ha, hb, hc⟩ :=
            awayBranch_flags { emptyGameResult with OT := otMatch s } t1 t2
          simp only [emptyGameResult] at ha hb hc ⊢
          simp [ha, hb, hc]
        · split
          · rename_i t1 t2 heq
            obtain ⟨ha, hb, hc⟩ :=
              neutralBranch_flags { emptyGameResult with OT := otMatch s } t1 t2
            simp only [emptyGameResult] at ha hb hc ⊢
            simp [ha, hb, hc]
          · simp [emptyGameResult]

-- ============================================================================
-- C3 (corrected): null/empty and delimiter-free inputs
-- ============================================================================

/-- C3 counterexample.  The input `"(OT)"` contains none of the recognized
delimiters, yet the returned result is not all-null: the trailing overtime
marker is recorded in the `OT` field, refuting the claim that every
delimiter-free input yields the all-null `GameResult`. -/
theorem parseGameResult_ot_only_counterexample :
    ¬ strLit ", " <:+: strLit "(OT)" ∧
    ¬ strLit " at " <:+: strLit "(OT)" ∧
    ¬ strLit " vs. " <:+: strLit "(OT)" ∧
    (parseGameResult (some (strLit "(OT)"))).OT = some (strLit "OT") := by
  decide

/-- C3 (amended).  A null or empty input yields the all-null result, and an
input containing none of the three delimiters yields a result in which
every field except `OT` is null and all flags are false; `OT` records a
trailing overtime marker when one is present.  The function is total, so it
never throws. -/
theorem parseGameResult_no_delimiter_behavior :
    parseGameResult none = emptyGameResult ∧
    parseGameResult (some []) = emptyGameResult ∧
    ∀ s : Str, ¬ strLit ", " <:+: s → ¬ strLit " at " <:+: s →
      ¬ strLit " vs. " <:+: s →
      parseGameResult (some s) = { emptyGameResult with OT := otMatch s } := by
  refine ⟨rfl, rfl, ?_⟩
  intro s h1 h2 h3
  by_cases hs : s = []
  · subst hs; decide
  · have hp1 : ¬ strLit ", " <:+: otProcessed s :=
      fun hc => h1 (hc.trans (otProcessed_within s))
    have hp2 : ¬ strLit " at " <:+: otProcessed s :=
      fun hc => h2 (hc.trans (otProcessed_within s))
    have hp3 : ¬ strLit " vs. " <:+: otProcessed s :=
      fun hc => h3 (hc.trans (otProcessed_within s))
    exact parseGameResult_no_split hs
      (splitOnSep_single (by decide) hp1)
      (splitOnSep_single (by decide) hp2)
      (splitOnSep_single (by decide) hp3)

/-- Witness for C3: an unrecognized string with no overtime marker gets the
all-null result. -/
theorem parseGameResult_no_delimiter_witness :
    parseGameResult (some (strLit "some random text")) = emptyGameResult := by
  have h := parseGameResult_no_delimiter_behavior.2.2 (strLit "some random text")
    (by decide) (by decide) (by decide)
  rw [h]; decide

-- ============================================================================
-- C2 (corrected): the comma branch is accepted on any two-part split
-- ============================================================================

/-- C2 counterexample.  For `"1 Duke at 2 UNC, extra"` the comma split
yields two parts and the second side has fewer than 3 tokens, yet the
string IS classified as a completed game (`isCompleted = true`) and the
`" at "` delimiter — which would also split it in two — is never tried
(`isAway = false`), refuting the claim. -/
theorem commaSplit_short_side_counterexample :
    (splitOnSep (strLit ", ")
      (otProcessed (strLit "1 Duke at 2 UNC, extra"))).length = 2 ∧
    (wsTokens (strLit "extra")).length < 3 ∧
    (splitOnSep (strLit " at ") (strLit "1 Duke at 2 UNC, extra")).length = 2 ∧
    (parseGameResult (some (strLit "1 Duke at 2 UNC, extra"))).isCompleted = true ∧
    (parseGameResult (some (strLit "1 Duke at 2 UNC, extra"))).isAway = false := by
  decide

/-- C2 (amended).  Whenever the split of the overtime-stripped string on
`", "` yields exactly two parts, `parseGameResult` classifies the string as
a completed game and the later delimiters are not tried; the ≥3-token check
gates only the per-side field extraction, a short side leaving its
rank/name/score fields null. -/
theorem commaSplit_always_completed (s t1 t2 : Str) (hs : s ≠ [])
    (hsp : splitOnSep (strLit ", ") (otProcessed s) = [t1, t2]) :
    (parseGameResult (some s)).isCompleted = true ∧
    (parseGameResult (some s)).isAway = false ∧
    (parseGameResult (some s)).isNeutral = false ∧
    ((wsTokens t1).length < 3 →
      (parseGameResult (some s)).Winner = none ∧
      (parseGameResult (some s)).WinnerRank = none ∧
      (parseGameResult (some s)).WinnerScore = none) ∧
    ((wsTokens t2).length < 3 →
      (parseGameResult (some s)).Loser = none ∧
      (parseGameResult (some s)).LoserRank = none ∧
      (parseGameResult (some s)).LoserScore = none) := by
  rw [parseGameResult_two_comma_parts hs hsp]
  obtain ⟨ha, hb, hc⟩ :=
    completedBranch_flags { emptyGameResult with OT := otMatch s } t1 t2
  refine ⟨ha, by rw [hb]; rfl, by rw [hc]; rfl, ?_, ?_⟩
  · intro hlen
    obtain ⟨h1, h2, h3, _⟩ := completedBranch_short_winner
      { emptyGameResult with OT := otMatch s } t1 t2 (by omega) rfl
    exact ⟨by rw [h1]; rfl, by rw [h2]; rfl, h3⟩
  · intro hlen
    obtain ⟨h1, h2, h3, _⟩ := completedBranch_short_loser
      { emptyGameResult with OT := otMatch s } t1 t2 (by omega) rfl
    exact ⟨by rw [h1]; rfl, by rw [h2]; rfl, h3⟩

/-- Witness for C2 at the counterexample input. -/
theorem commaSplit_always_completed_witness :
    (parseGameResult (some (strLit "1 Duke at 2 UNC, extra"))).isCompleted = true ∧
    (parseGameResult (some (strLit "1 Duke at 2 UNC, extra"))).Loser = none := by
  obtain ⟨h1, _, _, _, h5⟩ := commaSplit_always_completed
    (strLit "1 Duke at 2 UNC, extra") (strLit "1 Duke at 2 UNC") (strLit "extra")
    (by decide) (by decide)
  exact ⟨h1, (h5 (by decide)).1⟩

-- ============================================================================
-- C4 (corrected): the table locator's two failure modes
-- ============================================================================

/-- C4 counterexample.  On a document with zero matching tables the locator
throws the fixed message `"No tables found"`, which does not contain the
numeral of the actual count (it contains no digit at all), refuting the
claim that both failure messages report the actual number of tables. -/
theorem getTable_notFound_reports_no_count :
    getTable ([] : List Nat) 0 = .error noTablesMsg ∧
    ¬ strLit (Nat.repr 0) <:+: noTablesMsg ∧
    noTablesMsg.all (fun c => ¬ c.isDigit) = true := by
  refine ⟨rfl, ?_, ?_⟩ <;> decide

/-- C4 (amended).  The locator fails in exactly two ways: `NotFound` when
zero tables match and `IndexOutOfRange` when the index is not below the
match count.  The out-of-range message reports the requested index and the
actual count; the not-found message is fixed text that does not carry the
(necessarily zero) count as a numeral. -/
theorem getTable_failure_modes {α : Type} (tables : List α) (i : Nat) :
    ((∃ t, getTable tables i = .ok t) ↔ tables.length ≠ 0 ∧ i < tables.length) ∧
    (tables.length = 0 → getTable tables i = .error noTablesMsg) ∧
    (tables.length ≠ 0 → tables.length ≤ i →
      getTable tables i = .error (outOfBoundsMsg i tables.length) ∧
      strLit (Nat.repr tables.length) <:+: outOfBoundsMsg i tables.length ∧
      strLit (Nat.repr i) <:+: outOfBoundsMsg i tables.length) := by
  refine ⟨?_, ?_, ?_⟩
  · constructor
    · rintro ⟨t, ht⟩
      unfold getTable at ht
      by_cases h0 : tables.length = 0
      · rw [if_pos h0] at ht; exact absurd ht (by simp)
      · rw [if_neg h0] at ht
        by_cases h1 : tables.length ≤ i
        · rw [dif_pos h1] at ht; exact absurd ht (by simp)
        · exact ⟨h0, by omega⟩
    · rintro ⟨h0, h1⟩
      unfold getTable
      rw [if_neg h0, dif_neg (by omega)]
      exact ⟨_, rfl⟩
  · intro h0
    unfold getTable
    rw [if_pos h0]
  · intro h0 h1
    refine ⟨by unfold getTable; rw [if_neg h0, dif_pos h1], ?_, ?_⟩
    · exact ⟨strLit "Table index " ++ strLit (Nat.repr i) ++
        strLit " out of bounds. Found ", strLit " tables.",
        by simp [outOfBoundsMsg]⟩
    · exact ⟨strLit "Table index ",
        strLit " out of bounds. Found " ++ strLit (Nat.repr tables.length) ++
          strLit " tables.",
        by simp [outOfBoundsMsg]⟩

/-- Witness for C4: a concrete out-of-range request reports the count 3. -/
theorem getTable_failure_modes_witness :
    getTable [10, 20, 30] 5 = .error (outOfBoundsMsg 5 3) ∧
    strLit (Nat.repr 3) <:+: outOfBoundsMsg 5 3 := by
  obtain ⟨h1, h2, _⟩ :=
    (getTable_failure_modes [10, 20, 30] 5).2.2 (by decide) (by decide)
  exact ⟨h1, h2⟩

-- ============================================================================
-- C7 (confirmed): schema selection is monotonic in the season year
-- ============================================================================

lemma efficiencyColumns_length {y : Int} (hy : y ≠ 0) :
    (efficiencyColumns (some y)).length = if y < 2010 then 14 else 18 := by
  unfold efficiencyColumns seasonBefore
  by_cases h : y < 2010 <;> simp [h, hy]

lemma heightColumns_length {y : Int} (hy : y ≠ 0) :
    (heightColumns (some y)).length = if y < 2008 then 20 else 22 := by
  unfold heightColumns seasonBefore
  by_cases h : y < 2008 <;> simp [h, hy]

lemma scheduleColumns_length {y : Int} (hy : y ≠ 0) :
    (scheduleColumns (some y)).length = if y < 2010 then 10 else 11 := by
  unfold scheduleColumns seasonBefore
  by_cases h : y < 2010 <;> simp [h, hy]

/-- C7.  For every pair of (positive) season years, each year-thresholded
endpoint schema is monotone in the year — the list selected at or above the
threshold is at least as long as the one below — and two years on the same
side of every threshold select column lists of equal length. -/
theorem schema_selection_monotonic (y1 y2 : Int) (h1 : 0 < y1) (h2 : 0 < y2) :
    (y1 ≤ y2 →
      (efficiencyColumns (some y1)).length ≤ (efficiencyColumns (some y2)).length ∧
      (heightColumns (some y1)).length ≤ (heightColumns (some y2)).length ∧
      (scheduleColumns (some y1)).length ≤ (scheduleColumns (some y2)).length) ∧
    ((y1 < 2010 ↔ y2 < 2010) →
      (efficiencyColumns (some y1)).length = (efficiencyColumns (some y2)).length ∧
      (scheduleColumns (some y1)).length = (scheduleColumns (some y2)).length) ∧
    ((y1 < 2008 ↔ y2 < 2008) →
      (heightColumns (some y1)).length = (heightColumns (some y2)).length) := by
  rw [efficiencyColumns_length (by omega), efficiencyColumns_length (by omega),
    heightColumns_length (by omega), heightColumns_length (by omega),
    scheduleColumns_length (by omega), scheduleColumns_length (by omega)]
  refine ⟨?_, ?_, ?_⟩
  · intro hle
    refine ⟨?_, ?_, ?_⟩ <;> (split <;> split <;> omega)
  · intro hiff
    constructor <;> (split <;> split <;> omega)
  · intro hiff
    split <;> split <;> omega

/-- Witness for C7 at the efficiency threshold 2009 → 2010. -/
theorem schema_selection_monotonic_witness :
    (efficiencyColumns (some 2009)).length ≤ (efficiencyColumns (some 2010)).length ∧
    (heightColumns (some 2009)).length = (heightColumns (some 2010)).length := by
  obtain ⟨hmono, _, hsame⟩ :=
    schema_selection_monotonic 2009 2010 (by omega) (by omega)
  exact ⟨(hmono (by omega)).1, hsame (by omega)⟩

-- ============================================================================
-- C6 (corrected): header derivation and duplicate handling
-- ============================================================================

lemma dedupHeadersAux_prefix (suffix : Nat → Str) :
    ∀ (texts : List Str) (j : Nat) (acc : List Str),
      acc <+: dedupHeadersAux suffix j acc texts := by
  intro texts
  induction texts with
  | nil => intro j acc; exact List.prefix_rfl
  | cons t rest ih =>
    intro j acc
    exact (List.prefix_append acc [dedupStep suffix j acc t]).trans
      (ih (j + 1) (acc ++ [dedupStep suffix j acc t]))

lemma dedupHeadersAux_getElem (suffix : Nat → Str) :
    ∀ (texts : List Str) (j : Nat) (acc : List Str) (i : Nat) (t : Str),
      texts[i]? = some t →
      (dedupHeadersAux suffix j acc texts)[acc.length + i]? =
        some (dedupStep suffix (j + i)
          ((dedupHeadersAux suffix j acc texts).take (acc.length + i)) t) := by
  intro texts
  induction texts with
  | nil => intro j acc i t ht; simp at ht
  | cons t0 rest ih =>
    intro j acc i t ht
    cases i with
    | zero =>
      simp only [List.getElem?_cons_zero] at ht
      have ht0 : t = t0 := (Option.some_injective _ ht).symm
      subst ht0
      have hstep : dedupHeadersAux suffix j acc (t :: rest) =
          dedupHeadersAux suffix (j + 1) (acc ++ [dedupStep suffix j acc t]) rest := rfl
      have hpre : (acc ++ [dedupStep suffix j acc t]) <+:
          dedupHeadersAux suffix j acc (t :: rest) := by
        rw [hstep]
        exact dedupHeadersAux_prefix suffix rest (j + 1) _
      have htake : (dedupHeadersAux suffix j acc (t :: rest)).take (acc.length + 0) = acc := by
        have hpre2 : acc <+: dedupHeadersAux suffix j acc (t :: rest) :=
          (List.prefix_append acc [dedupStep suffix j acc t]).trans hpre
        rw [Nat.add_zero]
        exact (List.prefix_iff_eq_take.mp hpre2).symm
      obtain ⟨tail, htail⟩ := hpre
      rw [htake, ← htail, Nat.add_zero, Nat.add_zero]
      rw [List.append_assoc, List.getElem?_append_right (by omega)]
      simp
    | succ i' =>
      simp only [List.getElem?_cons_succ] at ht
      have hstep : dedupHeadersAux suffix j acc (t0 :: rest) =
          dedupHeadersAux suffix (j + 1) (acc ++ [dedupStep suffix j acc t0]) rest := rfl
      have := ih (j + 1) (acc ++ [dedupStep suffix j acc t0]) i' t ht
      rw [hstep]
      have hlen : (acc ++ [dedupStep suffix j acc t0]).length + i' =
          acc.length + (i' + 1) := by simp; omega
      rw [hlen] at this
      have harith : j + 1 + i' = j + (i' + 1) := by omega
      rw [harith] at this
      exact this

/-- C6 counterexample.  The Trends parser performs no duplicate
disambiguation at all: two identical header texts derive two identical
column names, refuting uniqueness at that call site. -/
theorem trendsHeaders_duplicate_counterexample :
    trendsHeaders [strLit "A", strLit "A"] = [strLit "A", strLit "A"] ∧
    ¬ (trendsHeaders [strLit "A", strLit "A"]).Nodup := by
  refine ⟨by decide, by decide⟩

/-- C6 (amended).  In every header-derivation call site the empty trimmed
header text at position `i` becomes `Column{i}`.  The utils table parser
appends `_{i}` to a header equal to an earlier derived one, and the
conference parsers append `.Rank`; the Trends parser applies no duplicate
disambiguation.  None of the call sites guarantees uniqueness: the Trends
headers keep duplicates, and in the suffixing call sites the suffixed name
can itself collide with an earlier header. -/
theorem headerDerivation_per_call_site :
    (∀ texts i t, texts[i]? = some t →
      (trendsHeaders texts)[i]? =
        some (if jsTrim t = [] then columnPlaceholder i else jsTrim t)) ∧
    (∀ texts i t, texts[i]? = some t →
      (underscoreHeaders texts)[i]? =
        some (dedupStep (fun k => '_' :: strLit (Nat.repr k)) i
          ((underscoreHeaders texts).take i) t)) ∧
    (∀ texts i t, texts[i]? = some t →
      (rankHeaders texts)[i]? =
        some (dedupStep (fun _ => strLit ".Rank") i
          ((rankHeaders texts).take i) t)) ∧
    (∃ ts, ¬ (trendsHeaders ts).Nodup) ∧
    (∃ ts, ¬ (underscoreHeaders ts).Nodup) ∧
    (∃ ts, ¬ (rankHeaders ts).Nodup) := by
  refine ⟨?_, ?_, ?_, ?_, ?_, ?_⟩
  · intro texts i t ht
    unfold trendsHeaders
    rw [List.getElem?_map, List.getElem?_enum, ht]
    rfl
  · intro texts i t ht
    have := dedupHeadersAux_getElem (fun k => '_' :: strLit (Nat.repr k))
      texts 0 [] i t ht
    simpa [underscoreHeaders] using this
  · intro texts i t ht
    have := dedupHeadersAux_getElem (fun _ => strLit ".Rank") texts 0 [] i t ht
    simpa [rankHeaders] using this
  · exact ⟨[strLit "A", strLit "A"], by decide⟩
  · exact ⟨[strLit "X_2", strLit "X", strLit "X"], by decide⟩
  · exact ⟨[strLit "X.Rank", strLit "X", strLit "X"], by decide⟩

/-- Witness for C6: a concrete empty header and a concrete duplicate. -/
theorem headerDerivation_witness :
    (trendsHeaders [strLit "", strLit "B"])[0]? = some (columnPlaceholder 0) ∧
    (underscoreHeaders [strLit "A", strLit "A"])[1]? = some (strLit "A_1") ∧
    (rankHeaders [strLit "AdjO", strLit "AdjO"])[1]? = some (strLit "AdjO.Rank") := by
  refine ⟨?_, ?_, ?_⟩
  · have h := headerDerivation_per_call_site.1 [strLit "", strLit "B"] 0
      (strLit "") (by decide)
    rw [h]; decide
  · have h := headerDerivation_per_call_site.2.1 [strLit "A", strLit "A"] 1
      (strLit "A") (by decide)
    rw [h]; decide
  · have h := headerDerivation_per_call_site.2.2.1 [strLit "AdjO", strLit "AdjO"] 1
      (strLit "AdjO") (by decide)
    rw [h]; decide

-- ============================================================================
-- C5 (confirmed): the row extractor
-- ============================================================================

lemma jsSet_of_not_mem {k : Str} (v : Str) :
    ∀ (l : List (Str × Str)), (∀ p ∈ l, p.1 ≠ k) → jsSet k v l = l ++ [(k, v)] := by
  intro l
  induction l with
  | nil => intro _; rfl
  | cons p rest ih =>
    intro h
    rw [jsSet, if_neg (h p (by simp))]
    rw [ih (fun q hq => h q (by simp [hq]))]
    rfl

lemma nodup_getElem_not_mem_take {cols : List Str} (h : cols.Nodup)
    {j : Nat} {col : Str} (hcol : cols[j]? = some col) : col ∉ cols.take j := by
  have hj : j < cols.length := by
    by_contra hc
    rw [List.getElem?_eq_none (by omega)] at hcol
    exact absurd hcol (by simp)
  have hsplit := List.take_append_drop j cols
  have hnd : (cols.take j ++ cols.drop j).Nodup := by rw [hsplit]; exact h
  have hdisj := (List.nodup_append.mp hnd).2.2
  intro hmem
  apply hdisj hmem
  have : cols.drop j = col :: cols.drop (j + 1) := by
    rw [List.drop_eq_getElem_cons hj]
    have : cols[j] = col := by
      have := List.getElem?_eq_getElem hj
      rw [hcol] at this
      exact Option.some_injective _ this.symm
    rw [this]
  rw [this]
  simp

lemma buildRowAux_eq {cols : List Str} (hnd : cols.Nodup) :
    ∀ (cells : List Str) (j : Nat) (acc : List (Str × Str)),
      (∀ p ∈ acc, p.1 ∈ cols.take j) →
      buildRowAux cols j cells acc = acc ++ (cols.drop j).zip (cells.map jsTrim) := by
  intro cells
  induction cells with
  | nil => intro j acc _; simp [buildRowAux]
  | cons c rest ih =>
    intro j acc hacc
    rw [buildRowAux]
    cases hcol : cols[j]? with
    | none =>
      have hj : cols.length ≤ j := by
        by_contra hc
        rw [List.getElem?_eq_getElem (by omega)] at hcol
        exact absurd hcol (by simp)
      have hdrop : cols.drop j = [] := List.drop_eq_nil_of_le hj
      have hdrop1 : cols.drop (j + 1) = [] := List.drop_eq_nil_of_le (by omega)
      have htake : cols.take j = cols.take (j + 1) := by
        rw [List.take_of_length_le hj, List.take_of_length_le (by omega)]
      have hred : (match (none : Option Str) with
          | some col => jsSet col (jsTrim c) acc
          | none => acc) = acc := rfl
      rw [hred, ih (j + 1) acc (fun p hp => htake ▸ hacc p hp)]
      rw [hdrop, hdrop1]
      simp
    | some col =>
      have hj : j < cols.length := by
        by_contra hc
        rw [List.getElem?_eq_none (by omega)] at hcol
        exact absurd hcol (by simp)
      have hset : jsSet col (jsTrim c) acc = acc ++ [(col, jsTrim c)] := by
        apply jsSet_of_not_mem
        intro p hp hpk
        exact nodup_getElem_not_mem_take hnd hcol (hpk ▸ hacc p hp)
      have hred : (match some col with
          | some col => jsSet col (jsTrim c) acc
          | none => acc) = jsSet col (jsTrim c) acc := rfl
      rw [hred, hset]
      have htake1 : cols.take (j + 1) = cols.take j ++ [col] := by
        rw [List.take_succ, hcol]
        rfl
      rw [ih (j + 1) (acc ++ [(col, jsTrim c)]) (fun p hp => by
        rcases List.mem_append.mp hp with hin | hin
        · rw [htake1]
          exact List.mem_append.mpr (Or.inl (hacc p hin))
        · rw [htake1]
          simp at hin
          simp [hin])]
      have hdropj : cols.drop j = col :: cols.drop (j + 1) := by
        rw [List.drop_eq_getElem_cons hj]
        have : cols[j] = col := by
          have := List.getElem?_eq_getElem hj
          rw [hcol] at this
          exact Option.some_injective _ this.symm
        rw [this]
      rw [hdropj]
      simp

/-- C5.  With a duplicate-free schema, the row extractor takes body rows
from the `tbody` when present and otherwise all rows after the first, maps
each body row to the pairing of the schema with the trimmed cell texts
(`zip` truncation silently drops cells beyond the schema length), and omits
every row that contributes zero keys. -/
theorem extractRows_spec (t : HtmlTable) (columns : List Str)
    (hnd : columns.Nodup) :
    extractRows t columns =
      (match t.tbody with
       | some rs => rs
       | none => t.allRows.drop 1).filterMap (fun (cells : List Str) =>
        let r := columns.zip (cells.map jsTrim)
        if r = [] then none else some r) := by
  have hfun : ∀ cells : List Str,
      (if cells = [] then none
       else
         let rowData := buildRowAux columns 0 cells []
         if rowData = [] then none else some rowData) =
      (let r := columns.zip (cells.map jsTrim)
       if r = [] then none else some r) := by
    intro cells
    by_cases hc : cells = []
    · subst hc
      simp
    · rw [if_neg hc]
      have hb := buildRowAux_eq hnd cells 0 [] (by simp)
      simp only [List.drop_zero, List.nil_append] at hb
      simp only [hb]
  unfold extractRows bodyRows
  rw [List.filterMap_congr (fun cells _ => hfun cells)]

/-- Witness for C5 at a concrete table: cells are trimmed, the extra third
cell is dropped, and the empty spacer row is omitted. -/
theorem extractRows_spec_witness :
    extractRows
      { tbody := some [[strLit " 1 ", strLit "Duke", strLit "x"], []],
        allRows := [] }
      [strLit "Rk", strLit "Team"] =
    [[(strLit "Rk", strLit "1"), (strLit "Team", strLit "Duke")]] := by
  rw [extractRows_spec _ _ (by decide)]
  decide

-- ============================================================================
-- C9 (confirmed): seed extraction and stripping round-trip
-- ============================================================================

lemma firstDigitRun_append {a : Str} (ha : ∀ c ∈ a, c.isDigit = false) :
    ∀ b : Str, firstDigitRun (a ++ b) = firstDigitRun b := by
  induction a with
  | nil => intro b; rfl
  | cons c cs ih =>
    intro b
    rw [List.cons_append, firstDigitRun, if_neg (by rw [ha c (by simp)]; simp)]
    exact ih (fun x hx => ha x (by simp [hx])) b

/-- C9.  For a team string built from a digit-free, whitespace-trimmed name
followed by a space and a numeric seed, `extractSeed` returns exactly the
seed and `stripSeed` returns exactly the clean name, so the two helpers
round-trip on `"<name> <seed>"` strings. -/
theorem seed_roundTrip (name seed : Str) (hn : name ≠ [])
    (hnd : ∀ c ∈ name, c.isDigit = false)
    (hh : ∀ c, name.head? = some c → c.isWhitespace = false)
    (hl : ∀ c, name.getLast? = some c → c.isWhitespace = false)
    (hs : seed ≠ []) (hsd : ∀ c ∈ seed, c.isDigit = true) :
    extractSeed (some (name ++ ' ' :: seed)) = some seed ∧
    stripSeed (some (name ++ ' ' :: seed)) = name := by
  have hne : name ++ ' ' :: seed ≠ [] := by simp
  constructor
  · rw [extractSeed, if_neg hne]
    have h1 : name ++ ' ' :: seed = (name ++ [' ']) ++ seed := by simp
    rw [h1, firstDigitRun_append (by
      intro c hc
      rcases List.mem_append.mp hc with hin | hin
      · exact hnd c hin
      · simp at hin
        subst hin
        rfl)]
    obtain ⟨c, cs, hcs⟩ : ∃ c cs, seed = c :: cs := by
      cases seed with
      | nil => exact absurd rfl hs
      | cons c cs => exact ⟨c, cs, rfl⟩
    subst hcs
    rw [firstDigitRun, if_pos (hsd c (by simp))]
    rw [takeWhile_eq_self_of_all (fun x hx => hsd x (by simp [hx]))]
  · rw [stripSeed, if_neg hne]
    have hfilter : (name ++ ' ' :: seed).filter (fun c => ¬ c.isDigit) =
        name ++ [' '] := by
      rw [List.filter_append]
      have h1 : name.filter (fun c => ¬ c.isDigit) = name :=
        List.filter_eq_self.mpr (fun c hc => by rw [hnd c hc]; simp)
      have h2 : (' ' :: seed).filter (fun c => ¬ c.isDigit) = [' '] := by
        rw [List.filter_cons_of_pos (by simp)]
        have : seed.filter (fun c => ¬ c.isDigit) = [] := by
          rw [List.filter_eq_nil_iff]
          intro c hc
          rw [hsd c hc]
          simp
        rw [this]
      rw [h1, h2]
    rw [hfilter]
    unfold jsTrim
    obtain ⟨c, cs, hcs⟩ : ∃ c cs, name = c :: cs := by
      cases name with
      | nil => exact absurd rfl hn
      | cons c cs => exact ⟨c, cs, rfl⟩
    have hdw : (name ++ [' ']).dropWhile Char.isWhitespace = name ++ [' '] := by
      rw [hcs, List.cons_append, List.dropWhile_cons,
        if_neg (by rw [hh c (by rw [hcs]; rfl)]; simp)]
    rw [hdw]
    have hrev : (name ++ [' ']).reverse = ' ' :: name.reverse := by simp
    rw [hrev]
    rw [List.dropWhile_cons, if_pos (by simp)]
    have hdw2 : name.reverse.dropWhile Char.isWhitespace = name.reverse := by
      cases hnr : name.reverse with
      | nil => rfl
      | cons d ds =>
        rw [List.dropWhile_cons, if_neg]
        have : name.getLast? = some d := by
          rw [← List.head?_reverse, hnr]; rfl
        rw [hl d this]
        simp
    rw [hdw2, List.reverse_reverse]

/-- Witness for C9 at the spec's example `"Duke 1"`. -/
theorem seed_roundTrip_witness :
    extractSeed (some (strLit "Duke 1")) = some (strLit "1") ∧
    stripSeed (some (strLit "Duke 1")) = strLit "Duke" := by
  have he : strLit "Duke 1" = strLit "Duke" ++ ' ' :: strLit "1" := by decide
  rw [he]
  exact seed_roundTrip (strLit "Duke") (strLit "1") (by decide) (by decide)
    (by decide) (by decide) (by decide) (by decide)

-- ============================================================================
-- C8 (confirmed): the prediction-string parser
-- ============================================================================

lemma movFromScore_eq {a b : Str} (ha : a ≠ []) (hb : b ≠ [])
    (had : a.all Char.isDigit = true) (hbd : b.all Char.isDigit = true) :
    movFromScore (a ++ '-' :: b) = some ((valOfDigits a : Int) - valOfDigits b) := by
  unfold movFromScore
  have h1 : a ++ '-' :: b = a ++ ['-'] ++ b := by simp
  have hsplit : splitOnSep ['-'] (a ++ '-' :: b) = [a, b] := by
    rw [h1]
    apply splitOnSep_dash
    · intro hmem
      have := List.all_eq_true.mp had '-' hmem
      simp at this
    · intro hmem
      have := List.all_eq_true.mp hbd '-' hmem
      simp at this
  rw [hsplit]
  simp only [List.map_cons, List.map_nil]
  rw [if_pos ⟨ha, had⟩, if_pos ⟨hb, hbd⟩]

/-- C8.  The prediction parser tries the full regex (with bracketed
possession count) first, then the reduced one, and otherwise nulls all
five derived fields; whenever a pattern matches, `PredictedMOV` is
recomputed as the difference of the two integers of the `PredictedScore`
capture, and the possession count is the decimal value of the bracketed
capture (present only for the full pattern). -/
theorem parseFanMatch_prediction (pred : Str) :
    (matchPredFull pred = none → matchPredSimple pred = none →
      parsePrediction pred =
        { PredictedWinner := none, PredictedScore := none, WinProbability := none,
          PredictedPossessions := none, PredictedMOV := none }) ∧
    (∀ n sc pr po a b, matchPredFull pred = some (n, sc, pr, po) →
      sc = a ++ '-' :: b → a ≠ [] → b ≠ [] →
      a.all Char.isDigit = true → b.all Char.isDigit = true → po ≠ [] →
      parsePrediction pred =
        { PredictedWinner := some (jsTrim n), PredictedScore := some sc,
          WinProbability := some pr,
          PredictedPossessions := some (valOfDigits po),
          PredictedMOV := some ((valOfDigits a : Int) - valOfDigits b) }) ∧
    (matchPredFull pred = none →
      ∀ n sc pr a b, matchPredSimple pred = some (n, sc, pr) →
      sc = a ++ '-' :: b → a ≠ [] → b ≠ [] →
      a.all Char.isDigit = true → b.all Char.isDigit = true →
      parsePrediction pred =
        { PredictedWinner := some (jsTrim n), PredictedScore := some sc,
          WinProbability := some pr, PredictedPossessions := none,
          PredictedMOV := some ((valOfDigits a : Int) - valOfDigits b) }) := by
  refine ⟨?_, ?_, ?_⟩
  · intro hf hs
    simp only [parsePrediction, hf, hs]
  · intro n sc pr po a b hf hsc ha hb had hbd hpo
    simp only [parsePrediction, hf]
    rw [if_neg hpo, hsc, movFromScore_eq ha hb had hbd]
  · intro hf n sc pr a b hs hsc ha hb had hbd
    simp only [parsePrediction, hf, hs]
    rw [hsc, movFromScore_eq ha hb had hbd]

/-- Witness for C8 at the spec's example `"Duke 82-75 (75%) [68]"`. -/
theorem parseFanMatch_prediction_witness :
    parsePrediction (strLit "Duke 82-75 (75%) [68]") =
      { PredictedWinner := some (strLit "Duke"),
        PredictedScore := some (strLit "82-75"),
        WinProbability := some (strLit "75%"),
        PredictedPossessions := some 68, PredictedMOV := some 7 } := by
  have h := (parseFanMatch_prediction (strLit "Duke 82-75 (75%) [68]")).2.1
    (strLit "Duke") (strLit "82-75") (strLit "75%") (strLit "68")
    (strLit "82") (strLit "75") (by decide) (by decide) (by decide) (by decide)
    (by decide) (by decide) (by decide)
  rw [h]
  decide

-- ============================================================================
-- C1 (confirmed): completed-game strings
-- ============================================================================

lemma joinSpace_no_comma_space {toks : List Str}
    (htok : ∀ t ∈ toks, t ≠ [] ∧ ∀ c ∈ t, c.isWhitespace = false)
    (hcomma : ∀ t ∈ toks, ∀ c, t.getLast? = some c → c ≠ ',') :
    ¬ strLit ", " <:+: joinSpace toks := by
  induction toks with
  | nil =>
    intro h
    have := h.length_le
    simp [joinSpace] at this
    exact absurd this (by decide)
  | cons t rest ih =>
    cases rest with
    | nil =>
      intro h
      have hsp : (' ' : Char) ∈ t := h.subset (by decide)
      have := (htok t (by simp)).2 ' ' hsp
      simp at this
    | cons t2 rest2 =>
      intro h
      have hjs : joinSpace (t :: t2 :: rest2) = t ++ ' ' :: joinSpace (t2 :: rest2) := rfl
      rw [hjs] at h
      have hd : strLit ", " = [(',' : Char), ' '] := rfl
      rw [hd] at h
      rcases infix_pair_append h with hin | hin | ⟨hlast, _⟩
      · have hsp : (' ' : Char) ∈ t := hin.subset (by simp)
        have := (htok t (by simp)).2 ' ' hsp
        simp at this
      · rcases infix_pair_cons hin with ⟨hsp, _⟩ | hin2
        · simp at hsp
        · exact ih (fun u hu => htok u (by simp [hu]))
            (fun u hu => hcomma u (by simp [hu])) (by rw [hd]; exact hin2)
      · exact absurd rfl (hcomma t (by simp) ',' hlast)

lemma digit_getLast_not_char {s : Str} {d : Char} (hd : ∀ c ∈ s, c.isDigit = true)
    (h : s.getLast? = some d) {e : Char} (he : e.isDigit = false) : d ≠ e := by
  obtain ⟨hne, heq⟩ := List.mem_getLast?_eq_getLast h
  have hmem : d ∈ s := heq ▸ List.getLast_mem hne
  exact digit_ne_of_not_digit (hd d hmem) he

lemma completedBranch_both_sides (r0 : GameResult) (t1 t2 : Str)
    (rk1 sc1 rk2 sc2 : Str) (n1 n2 : List Str) (a1 a2 : Int)
    (hn1 : n1 ≠ []) (hn2 : n2 ≠ [])
    (hw : wsTokens t1 = rk1 :: n1 ++ [sc1])
    (hl : wsTokens t2 = rk2 :: n2 ++ [sc2])
    (hs1 : sc1 ≠ []) (hs2 : sc2 ≠ [])
    (hp1 : jsParseInt sc1 = some a1) (hp2 : jsParseInt sc2 = some a2) :
    completedBranch r0 t1 t2 =
      { r0 with
        isCompleted := true, WinnerRank := some rk1,
        WinnerScore := some sc1, Winner := some (joinSpace n1),
        LoserRank := some rk2, LoserScore := some sc2,
        Loser := some (joinSpace n2), ActualMOV := some (a1 - a2) } := by
  have hlen1 : 3 ≤ (rk1 :: n1 ++ [sc1]).length := by
    have := List.length_pos.mpr hn1
    simp
    omega
  have hlen2 : 3 ≤ (rk2 :: n2 ++ [sc2]).length := by
    have := List.length_pos.mpr hn2
    simp
    omega
  have hhead1 : (rk1 :: n1 ++ [sc1]).head? = some rk1 := rfl
  have hhead2 : (rk2 :: n2 ++ [sc2]).head? = some rk2 := rfl
  have hlast1 : (rk1 :: n1 ++ [sc1]).getLast? = some sc1 := by
    rw [show rk1 :: n1 ++ [sc1] = (rk1 :: n1) ++ [sc1] by simp]
    exact List.getLast?_concat _
  have hlast2 : (rk2 :: n2 ++ [sc2]).getLast? = some sc2 := by
    rw [show rk2 :: n2 ++ [sc2] = (rk2 :: n2) ++ [sc2] by simp]
    exact List.getLast?_concat _
  have hmid1 : ((rk1 :: n1 ++ [sc1]).drop 1).dropLast = n1 := by
    simp [List.dropLast_concat]
  have hmid2 : ((rk2 :: n2 ++ [sc2]).drop 1).dropLast = n2 := by
    simp [List.dropLast_concat]
  simp only [completedBranch, hw, hl]
  rw [if_pos hlen1, if_pos hlen2]
  simp only [hhead1, hhead2, hlast1, hlast2, hmid1, hmid2]
  rw [if_pos ⟨hs1, hs2⟩]
  rw [hp1, hp2]

/-- C1.  Every completed-game string of the form
`"<rank> <name> <score>, <rank> <name> <score>"` — ranks and multi-token
names made of non-empty whitespace-free tokens not ending in a comma,
scores non-empty digit strings — is parsed with the first side as Winner
and the second as Loser: rank is the first token, score the last, the name
the tokens strictly between joined by single spaces, `ActualMOV` is the
integer difference of the scores, `isCompleted` is true and
`isAway`/`isNeutral` are false. -/
theorem parseGameResult_completed_format
    (rk1 sc1 rk2 sc2 : Str) (n1 n2 : List Str)
    (hn1 : n1 ≠ []) (hn2 : n2 ≠ [])
    (htok : ∀ t ∈ rk1 :: rk2 :: (n1 ++ n2), t ≠ [] ∧ ∀ c ∈ t, c.isWhitespace = false)
    (hcomma : ∀ t ∈ rk1 :: rk2 :: (n1 ++ n2), ∀ c, t.getLast? = some c → c ≠ ',')
    (hs1 : sc1 ≠ []) (hs1d : ∀ c ∈ sc1, c.isDigit = true)
    (hs2 : sc2 ≠ []) (hs2d : ∀ c ∈ sc2, c.isDigit = true) :
    parseGameResult (some (joinSpace (rk1 :: n1 ++ [sc1]) ++ strLit ", " ++
        joinSpace (rk2 :: n2 ++ [sc2]))) =
      { Winner := some (joinSpace n1), WinnerRank := some rk1,
        WinnerScore := some sc1, Loser := some (joinSpace n2),
        LoserRank := some rk2, LoserScore := some sc2, OT := none,
        ActualMOV := some ((valOfDigits sc1 : Int) - valOfDigits sc2),
        isCompleted := true, isNeutral := false, isAway := false } := by
  set side1 := joinSpace (rk1 :: n1 ++ [sc1]) with hside1
  set side2 := joinSpace (rk2 :: n2 ++ [sc2]) with hside2
  set s := side1 ++ strLit ", " ++ side2 with hsdef
  have htok1 : ∀ t ∈ rk1 :: n1 ++ [sc1], t ≠ [] ∧ ∀ c ∈ t, c.isWhitespace = false := by
    intro t ht
    rcases List.mem_cons.mp ht with h | h
    · exact h ▸ htok rk1 (by simp)
    · rcases List.mem_append.mp h with h2 | h2
      · exact htok t (by simp [h2])
      · simp at h2
        subst h2
        exact ⟨hs1, fun c hc => digit_not_whitespace (hs1d c hc)⟩
  have htok2 : ∀ t ∈ rk2 :: n2 ++ [sc2], t ≠ [] ∧ ∀ c ∈ t, c.isWhitespace = false := by
    intro t ht
    rcases List.mem_cons.mp ht with h | h
    · exact h ▸ htok rk2 (by simp)
    · rcases List.mem_append.mp h with h2 | h2
      · exact htok t (by simp [h2])
      · simp at h2
        subst h2
        exact ⟨hs2, fun c hc => digit_not_whitespace (hs2d c hc)⟩
  have hcomma1 : ∀ t ∈ rk1 :: n1 ++ [sc1], ∀ c, t.getLast? = some c → c ≠ ',' := by
    intro t ht c hc
    rcases List.mem_cons.mp ht with h | h
    · exact (h ▸ hcomma rk1 (by simp)) c (h ▸ hc)
    · rcases List.mem_append.mp h with h2 | h2
      · exact hcomma t (by simp [h2]) c hc
      · simp at h2
        subst h2
        exact digit_getLast_not_char hs1d hc (by decide)
  have hcomma2 : ∀ t ∈ rk2 :: n2 ++ [sc2], ∀ c, t.getLast? = some c → c ≠ ',' := by
    intro t ht c hc
    rcases List.mem_cons.mp ht with h | h
    · exact (h ▸ hcomma rk2 (by simp)) c (h ▸ hc)
    · rcases List.mem_append.mp h with h2 | h2
      · exact hcomma t (by simp [h2]) c hc
      · simp at h2
        subst h2
        exact digit_getLast_not_char hs2d hc (by decide)
  have hlist1 : rk1 :: n1 ++ [sc1] ≠ [] := by simp
  have hlist2 : rk2 :: n2 ++ [sc2] ≠ [] := by simp
  have hside2ne : side2 ≠ [] :=
    joinSpace_ne_nil hlist2 (fun t ht => (htok2 t ht).1)
  have hside1ne : side1 ≠ [] :=
    joinSpace_ne_nil hlist1 (fun t ht => (htok1 t ht).1)
  have hsne : s ≠ [] := by
    rw [hsdef]
    simp [hside1ne]
  have hslast : s.getLast? = sc2.getLast? := by
    rw [hsdef]
    rw [show side1 ++ strLit ", " ++ side2 = (side1 ++ strLit ", ") ++ side2 by simp]
    rw [List.getLast?_append_of_ne_nil _ hside2ne]
    rw [hside2]
    rw [show rk2 :: n2 ++ [sc2] = (rk2 :: n2) ++ [sc2] by simp]
    exact joinSpace_getLast? (by simp) hs2
  have hot : otMatch s = none := by
    apply otMatch_eq_none
    intro c hc
    rw [hslast] at hc
    exact digit_getLast_not_char hs2d hc (by decide)
  have hproc : otProcessed s = s := by
    rw [otProcessed, hot]
  have hsplit : splitOnSep (strLit ", ") (otProcessed s) = [side1, side2] := by
    rw [hproc, hsdef]
    exact splitOnSep_comma (joinSpace_no_comma_space htok1 hcomma1)
      (joinSpace_no_comma_space htok2 hcomma2)
  rw [parseGameResult_two_comma_parts hsne hsplit]
  rw [completedBranch_both_sides _ side1 side2 rk1 sc1 rk2 sc2 n1 n2
    ((valOfDigits sc1 : Int)) ((valOfDigits sc2 : Int)) hn1 hn2
    (by rw [hside1]; exact wsTokens_joinSpace hlist1 htok1)
    (by rw [hside2]; exact wsTokens_joinSpace hlist2 htok2)
    hs1 hs2
    (jsParseInt_digits hs1 hs1d) (jsParseInt_digits hs2 hs2d)]
  rw [hot]
  rfl

/-- Witness for C1 at the spec's example `"233 Rice 77, 273 FIU 70"`. -/
theorem parseGameResult_completed_witness :
    parseGameResult (some (strLit "233 Rice 77, 273 FIU 70")) =
      { Winner := some (strLit "Rice"), WinnerRank := some (strLit "233"),
        WinnerScore := some (strLit "77"), Loser := some (strLit "FIU"),
        LoserRank := some (strLit "273"), LoserScore := some (strLit "70"),
        OT := none, ActualMOV := some 7, isCompleted := true,
        isNeutral := false, isAway := false } := by
  have he : strLit "233 Rice 77, 273 FIU 70" =
      joinSpace (strLit "233" :: [strLit "Rice"] ++ [strLit "77"]) ++ strLit ", " ++
      joinSpace (strLit "273" :: [strLit "FIU"] ++ [strLit "70"]) := by decide
  rw [he]
  rw [parseGameResult_completed_format (strLit "233") (strLit "77") (strLit "273")
    (strLit "70") [strLit "Rice"] [strLit "FIU"] (by decide) (by decide)
    (by decide) (by decide) (by decide) (by decide) (by decide) (by decide)]
  decide
